import Mathlib

/-!
Verification development for the speech playback pipeline of the
Financial-app-With-Gemini repository.

The pipeline lives in two React components:

* `InvestmentPredictor` (src/App.tsx): a queued pipeline with refs
  `audioQueueRef`, `isStoppedManuallyRef`, `audioSourceRef`,
  `audioContextRef`, state `isSpeaking`, and functions `playNextInQueue`,
  `stopPlayback`, `handleSpeak`, plus an unmount cleanup effect.
* `FinanceAdvisor` (src/components/FinanceAdvisor.tsx): a single-shot
  pipeline with `handleSpeak` and `stopPlayback` and no cleanup effect.

The JavaScript execution model is single-threaded and event-driven: the
only suspension points are the `await` of the synthesis call and the
`onended` completion callback of an `AudioBufferSourceNode`.  We embed
the pipeline as an explicit state record plus a step function over
scheduler events.  Each event executes one synchronous block of the
source code atomically, which matches the run-to-completion semantics of
the browser event loop.  The continuation of `playNextInQueue` after
`await getTextToSpeechAudio` (context setup, decoding, source creation
and start) contains further awaits (`resume`, `decodeAudioData`) that
complete without visible intermediate effects; the model executes that
continuation as one block, with decoding failure folded into the
`synthErr` event (both the fetch rejection and the decode rejection land
in the same `catch`).

Observable actions are recorded in a trace: synthesis requests, decode
calls (with their sample-rate and channel-count arguments), playback
starts, `setIsSpeaking` calls and `setError` calls.
-/

/-- Playback state of one `AudioBufferSourceNode`: whether it is currently
producing sound, and whether its `onended` completion callback is still
attached (it is detached by `stopPlayback` via `onended = null`). -/
structure Source where
  playing : Bool
  onendedAttached : Bool
  deriving Repr, DecidableEq

/-- State of the `AudioContext` handle: the source only ever observes
`running`, `suspended` or `closed`. -/
inductive CtxSt where
  | running
  | suspended
  | closed
  deriving Repr, DecidableEq

/-- State of the `InvestmentPredictor` pipeline (src/App.tsx):
`queue` is `audioQueueRef.current`, `stoppedManually` is
`isStoppedManuallyRef.current`, `isSpeaking` the React state,
`ctx` is `audioContextRef.current`, `sources` all created buffer source
nodes keyed by a fresh identifier, `sourceRef` is `audioSourceRef.current`,
`pendingSynth` the in-flight `getTextToSpeechAudio` calls (identifier and
requested text), `errorMsg` the `error` React state. -/
structure PipelineState where
  queue : List String
  stoppedManually : Bool
  isSpeaking : Bool
  ctx : Option CtxSt
  sources : List (Nat × Source)
  sourceRef : Option Nat
  pendingSynth : List (Nat × String)
  errorMsg : Option String
  nextId : Nat
  deriving Repr, DecidableEq

/-- Observable actions of the pipeline. -/
inductive Obs where
  | synthRequest (text : String)
  | decodeCall (sampleRate : Nat) (channels : Nat)
  | playStart (srcId : Nat) (text : String)
  | speakingSet (b : Bool)
  | errorSet
  deriving Repr, DecidableEq

/-- Scheduler events: user clicks (speak toggles: stop when speaking),
direct `stopPlayback` invocations (the unmount cleanup and `handleSubmit`
call it directly), resolution or rejection of an in-flight synthesis
call, and natural end of playback of a source node. -/
inductive Event where
  | speak (segments : List String)
  | stop
  | synthOk (reqId : Nat)
  | synthErr (reqId : Nat)
  | ended (srcId : Nat)
  deriving Repr, DecidableEq

/-- The synchronous prefix of `playNextInQueue` (src/App.tsx lines 53-62):
check the manual-stop flag and emptiness, dequeue, skip empty text, and
otherwise issue the synthesis request (the code then suspends at
`await getTextToSpeechAudio`). -/
def playNextInQueue (s : PipelineState) : PipelineState × List Obs :=
  if s.stoppedManually || s.queue.isEmpty then
    ({ s with isSpeaking := false, stoppedManually := false },
     [Obs.speakingSet false])
  else
    match s.queue with
    | [] => (s, [])
    | text :: rest =>
      if text = "" then
        ({ s with queue := rest }, [])
      else
        ({ s with queue := rest,
                  pendingSynth := s.pendingSynth ++ [(s.nextId, text)],
                  nextId := s.nextId + 1 },
         [Obs.synthRequest text])

/-- The continuation of `playNextInQueue` after `await getTextToSpeechAudio`
resolves (src/App.tsx lines 66-86): create the `AudioContext` with sample
rate 24000 if absent or closed, resume it if suspended, decode at 24000 Hz
mono, create a buffer source with the `onended` continuation attached,
start it and store it in `audioSourceRef`. -/
def synthResolveOk (s : PipelineState) (text : String) : PipelineState × List Obs :=
  let s1 :=
    match s.ctx with
    | none => { s with ctx := some CtxSt.running }
    | some CtxSt.closed => { s with ctx := some CtxSt.running }
    | some CtxSt.suspended => { s with ctx := some CtxSt.running }
    | some CtxSt.running => s
  let i := s1.nextId
  ({ s1 with
      sources := s1.sources ++ [(i, { playing := true, onendedAttached := true })],
      sourceRef := some i,
      nextId := i + 1 },
   [Obs.decodeCall 24000 1, Obs.playStart i text])

/-- The `catch` block of `playNextInQueue` (src/App.tsx lines 87-90),
entered when the synthesis call rejects or decoding fails. -/
def synthResolveErr (s : PipelineState) : PipelineState × List Obs :=
  ({ s with errorMsg := some "Failed to generate or play audio for a segment.",
            isSpeaking := false },
   [Obs.errorSet, Obs.speakingSet false])

/-- `stopPlayback` (src/App.tsx lines 94-107): set the manual-stop flag,
empty the queue, detach the current source node (null its `onended`, stop
and disconnect it, clear the ref), suspend the context if present and not
closed, and set `isSpeaking` to false. -/
def stopPlayback (s : PipelineState) : PipelineState × List Obs :=
  let s1 := { s with stoppedManually := true, queue := ([] : List String) }
  let s2 :=
    match s1.sourceRef with
    | some i =>
      { s1 with
          sources := s1.sources.map (fun (p : Nat × Source) =>
            if p.fst == i then (p.fst, { playing := false, onendedAttached := false })
            else p),
          sourceRef := none }
    | none => s1
  let s3 :=
    match s2.ctx with
    | some c => if c == CtxSt.closed then s2 else { s2 with ctx := some CtxSt.suspended }
    | none => s2
  ({ s3 with isSpeaking := false }, [Obs.speakingSet false])

/-- `handleSpeak` (src/App.tsx lines 109-127): toggle.  When already
speaking it stops; otherwise it clears the error, marks speaking, clears
the manual-stop flag, replaces the queue with the text chunks built from
the prediction (the model takes them as a parameter) and starts the first
`playNextInQueue`. -/
def handleSpeak (s : PipelineState) (segments : List String) : PipelineState × List Obs :=
  if s.isSpeaking then
    stopPlayback s
  else
    let s1 := { s with errorMsg := none, isSpeaking := true,
                       stoppedManually := false, queue := segments }
    let r := playNextInQueue s1
    (r.1, Obs.speakingSet true :: r.2)

/-- The `onended` notification of a source node: if the node is still
playing and its callback is attached, the callback
(src/App.tsx lines 81-84) clears `audioSourceRef` and calls
`playNextInQueue`; a detached node ends silently. -/
def sourceEnded (s : PipelineState) (i : Nat) : PipelineState × List Obs :=
  match s.sources.find? (fun p => p.fst == i) with
  | none => (s, [])
  | some q =>
    if q.snd.playing then
      let s1 := { s with sources := s.sources.map (fun (p : Nat × Source) =>
          if p.fst == i then (p.fst, { p.snd with playing := false }) else p) }
      if q.snd.onendedAttached then
        playNextInQueue { s1 with sourceRef := none }
      else
        (s1, [])
    else
      (s, [])

/-- One scheduler event.  Events that are not enabled (resolution of a
synthesis call that is not pending, end of a node that is not playing)
leave the state unchanged. -/
def stepEv (s : PipelineState) : Event → PipelineState × List Obs
  | Event.speak segs => handleSpeak s segs
  | Event.stop => stopPlayback s
  | Event.synthOk i =>
    match s.pendingSynth.find? (fun p => p.fst == i) with
    | some q =>
      synthResolveOk { s with pendingSynth := s.pendingSynth.filter (fun p => p.fst != i) } q.snd
    | none => (s, [])
  | Event.synthErr i =>
    match s.pendingSynth.find? (fun p => p.fst == i) with
    | some _ =>
      synthResolveErr { s with pendingSynth := s.pendingSynth.filter (fun p => p.fst != i) }
    | none => (s, [])
  | Event.ended i => sourceEnded s i

/-- Run a list of scheduler events, accumulating the trace of actions. -/
def run (s : PipelineState) : List Event → PipelineState × List Obs
  | [] => (s, [])
  | e :: es =>
    let r1 := stepEv s e
    let r2 := run r1.1 es
    (r2.1, r1.2 ++ r2.2)

/-- Initial state of the component: empty queue, not speaking, no context,
no source, no pending calls. -/
def initState : PipelineState :=
  { queue := [], stoppedManually := false, isSpeaking := false, ctx := none,
    sources := [], sourceRef := none, pendingSynth := [], errorMsg := none,
    nextId := 0 }

/-- Number of source nodes currently producing sound. -/
def activeCount (s : PipelineState) : Nat :=
  (s.sources.filter (fun p => p.snd.playing)).length

/-- The texts of the synthesis requests appearing in a trace, in order. -/
def synthRequestsOf (tr : List Obs) : List String :=
  tr.filterMap (fun a => match a with
    | Obs.synthRequest t => some t
    | _ => none)

/-- Number of playback starts in a trace. -/
def playCount (tr : List Obs) : Nat :=
  (tr.filter (fun a => match a with
    | Obs.playStart _ _ => true
    | _ => false)).length

/-- Number of error reports in a trace. -/
def errorCount (tr : List Obs) : Nat :=
  (tr.filter (fun a => match a with
    | Obs.errorSet => true
    | _ => false)).length

/-- Whether an event is a user `speak` click. -/
def isSpeakEv : Event → Bool
  | Event.speak _ => true
  | _ => false

/-- Whether processing event `e` in state `s` executes `stopPlayback`
(a direct stop, or a speak click while speaking). -/
def stopInvoked (s : PipelineState) : Event → Bool
  | Event.stop => true
  | Event.speak _ => s.isSpeaking
  | _ => false

/-- A run is stop-clean when every execution of `stopPlayback` happens
while no synthesis call is in flight. -/
def cleanStops : PipelineState → List Event → Bool
  | _, [] => true
  | s, e :: es =>
    (!(stopInvoked s e) || s.pendingSynth.isEmpty) && cleanStops (stepEv s e).1 es

/-! ### FinanceAdvisor playback (src/components/FinanceAdvisor.tsx)

The second component implementing playback.  It synthesizes the whole
advice text as a single call (no queue).  Its `stopPlayback` stops and
disconnects the current source without detaching `onended` first; in the
browser the stop therefore fires the `onended` callback, which only
repeats what `stopPlayback` itself already does (reset `isSpeaking`,
clear the ref), so the model elides that re-entry.  Likewise the
`handleSpeak` success path stops any previous source before starting the
new one. -/

/-- State of the `FinanceAdvisor` component. -/
structure FAState where
  isSpeaking : Bool
  errorMsg : Option String
  ctx : Option CtxSt
  sources : List (Nat × Source)
  sourceRef : Option Nat
  pendingSynth : List (Nat × String)
  nextId : Nat
  deriving Repr, DecidableEq

/-- Scheduler events for the `FinanceAdvisor` component. -/
inductive FAEvent where
  | speak (text : String)
  | stop
  | synthOk (reqId : Nat)
  | synthErr (reqId : Nat)
  | ended (srcId : Nat)
  deriving Repr, DecidableEq

/-- `stopPlayback` of FinanceAdvisor (lines 21-31): stop and disconnect
the current source, clear the ref, suspend the context if present and
not closed, set `isSpeaking` to false. -/
def faStopPlayback (s : FAState) : FAState × List Obs :=
  let s1 :=
    match s.sourceRef with
    | some i =>
      { s with
          sources := s.sources.map (fun (p : Nat × Source) =>
            if p.fst == i then (p.fst, { p.snd with playing := false }) else p),
          sourceRef := none }
    | none => s
  let s2 :=
    match s1.ctx with
    | some c => if c == CtxSt.closed then s1 else { s1 with ctx := some CtxSt.suspended }
    | none => s1
  ({ s2 with isSpeaking := false }, [Obs.speakingSet false])

/-- The synchronous prefix of `handleSpeak` of FinanceAdvisor
(lines 33-44): toggle; when starting, mark speaking, clear the error and
request synthesis of the full advice text (the model takes the text as a
parameter; the code suspends at `await getTextToSpeechAudio`). -/
def faHandleSpeak (s : FAState) (text : String) : FAState × List Obs :=
  if s.isSpeaking then
    faStopPlayback s
  else
    ({ s with isSpeaking := true, errorMsg := none,
              pendingSynth := s.pendingSynth ++ [(s.nextId, text)],
              nextId := s.nextId + 1 },
     [Obs.speakingSet true, Obs.synthRequest text])

/-- The continuation of `handleSpeak` after the synthesis call resolves
(lines 46-70): create the context with sample rate 24000 if absent or
closed, resume if suspended, decode at 24000 Hz mono, stop any previous
source, start the new one with `onended` attached and store it in the
ref. -/
def faSynthResolveOk (s : FAState) (text : String) : FAState × List Obs :=
  let s1 :=
    match s.ctx with
    | none => { s with ctx := some CtxSt.running }
    | some CtxSt.closed => { s with ctx := some CtxSt.running }
    | some CtxSt.suspended => { s with ctx := some CtxSt.running }
    | some CtxSt.running => s
  let s2 :=
    match s1.sourceRef with
    | some j =>
      { s1 with sources := s1.sources.map (fun (p : Nat × Source) =>
          if p.fst == j then (p.fst, { p.snd with playing := false }) else p) }
    | none => s1
  let i := s2.nextId
  ({ s2 with
      sources := s2.sources ++ [(i, { playing := true, onendedAttached := true })],
      sourceRef := some i,
      nextId := i + 1 },
   [Obs.decodeCall 24000 1, Obs.playStart i text])

/-- The `catch` block of `handleSpeak` of FinanceAdvisor (lines 72-75). -/
def faSynthResolveErr (s : FAState) : FAState × List Obs :=
  ({ s with errorMsg := some "Failed to generate or play audio.",
            isSpeaking := false },
   [Obs.errorSet, Obs.speakingSet false])

/-- The `onended` callback of a FinanceAdvisor source (lines 65-68):
reset `isSpeaking` and clear the ref. -/
def faSourceEnded (s : FAState) (i : Nat) : FAState × List Obs :=
  match s.sources.find? (fun p => p.fst == i) with
  | none => (s, [])
  | some q =>
    if q.snd.playing then
      let s1 := { s with sources := s.sources.map (fun (p : Nat × Source) =>
          if p.fst == i then (p.fst, { p.snd with playing := false }) else p) }
      if q.snd.onendedAttached then
        ({ s1 with isSpeaking := false, sourceRef := none }, [Obs.speakingSet false])
      else
        (s1, [])
    else
      (s, [])

/-- One scheduler event of the FinanceAdvisor component. -/
def faStepEv (s : FAState) : FAEvent → FAState × List Obs
  | FAEvent.speak text => faHandleSpeak s text
  | FAEvent.stop => faStopPlayback s
  | FAEvent.synthOk i =>
    match s.pendingSynth.find? (fun p => p.fst == i) with
    | some q =>
      faSynthResolveOk { s with pendingSynth := s.pendingSynth.filter (fun p => p.fst != i) } q.snd
    | none => (s, [])
  | FAEvent.synthErr i =>
    match s.pendingSynth.find? (fun p => p.fst == i) with
    | some _ =>
      faSynthResolveErr { s with pendingSynth := s.pendingSynth.filter (fun p => p.fst != i) }
    | none => (s, [])
  | FAEvent.ended i => faSourceEnded s i

/-- Run a list of FinanceAdvisor scheduler events. -/
def faRun (s : FAState) : List FAEvent → FAState × List Obs
  | [] => (s, [])
  | e :: es =>
    let r1 := faStepEv s e
    let r2 := faRun r1.1 es
    (r2.1, r1.2 ++ r2.2)

/-- Initial state of the FinanceAdvisor component. -/
def faInitState : FAState :=
  { isSpeaking := false, errorMsg := none, ctx := none, sources := [],
    sourceRef := none, pendingSynth := [], nextId := 0 }

/-- Number of FinanceAdvisor source nodes currently producing sound. -/
def faActiveCount (s : FAState) : Nat :=
  (s.sources.filter (fun p => p.snd.playing)).length

/-! ### Teardown hooks

`InvestmentPredictor` registers a cleanup effect (src/App.tsx lines
129-134) whose teardown calls `stopPlayback`.  `FinanceAdvisor`
(src/components/FinanceAdvisor.tsx lines 7-95) registers no effect at
all, so destroying the view runs no component code: unmounting leaves
the audio state untouched. -/

/-- What unmounting `InvestmentPredictor` does to the pipeline state:
the cleanup effect calls `stopPlayback`. -/
def investmentPredictorUnmount (s : PipelineState) : PipelineState :=
  (stopPlayback s).1

/-- What unmounting `FinanceAdvisor` does to its playback state: the
component registers no cleanup (there is no `useEffect` in the file), so
nothing runs and the state is unchanged. -/
def financeAdvisorUnmount (s : FAState) : FAState :=
  s

/-! ### The synthesis service call `getTextToSpeechAudio`
(src/components/FinanceAdvisor.tsx part `geminiService`, lines 371-394). -/

/-- Outcome of the remote `generateContent` call as the function observes
it: either the call rejects, or it resolves to a response whose optional
chain `candidates?[0]?.content?.parts?[0]?.inlineData?.data` yields the
given optional string. -/
inductive TtsOutcome where
  | requestError
  | response (data : Option String)
  deriving Repr, DecidableEq

/-- `getTextToSpeechAudio` (lines 371-394): return the extracted Base64
audio data; the inner `throw` on a falsy payload (`!base64Audio`, i.e.
missing or empty) and the rejection of the remote call both land in the
`catch`, which rethrows the generic synthesis failure. -/
def getTextToSpeechAudio (o : TtsOutcome) : Except String String :=
  match o with
  | TtsOutcome.requestError => Except.error "Failed to generate speech from the AI."
  | TtsOutcome.response data =>
    match data with
    | none => Except.error "Failed to generate speech from the AI."
    | some s =>
      if s = "" then Except.error "Failed to generate speech from the AI."
      else Except.ok s

/-- Whether an `Except` result is an error. -/
def isErrResult (r : Except String String) : Bool :=
  match r with
  | Except.error _ => true
  | Except.ok _ => false

/-! ### Canonical schedules

In a session that is never interrupted, at most one continuation is ever
outstanding (one pending synthesis call or one playing source), so the
scheduler has no real choice: the run is the canonical alternation of
synthesis resolutions and playback completions.  `drain i m q` is that
schedule for a session whose current in-flight request has identifier
`i`, whose next fresh identifier is `m`, and whose remaining queue is
`q`; `drainFail` is the variant in which the synthesis call of the
`(j+1)`-st segment still to be played rejects. -/

/-- Canonical uninterrupted schedule: resolve the in-flight request `i`,
play the resulting source `m` to its natural end, repeat for the rest of
the queue. -/
def drain (i m : Nat) : List String → List Event
  | [] => [Event.synthOk i, Event.ended m]
  | _ :: ts => Event.synthOk i :: Event.ended m :: drain (m + 1) (m + 2) ts

/-- Trace produced by `drain`: `cur` is the text of the in-flight
request, `m` the identifier of the source it will produce. -/
def drainTrace (m : Nat) (cur : String) : List String → List Obs
  | [] => [Obs.decodeCall 24000 1, Obs.playStart m cur, Obs.speakingSet false]
  | t :: ts =>
    Obs.decodeCall 24000 1 :: Obs.playStart m cur :: Obs.synthRequest t ::
      drainTrace (m + 2) t ts

/-- Canonical schedule in which the current in-flight request fails after
`j` further successful segment cycles. -/
def drainFail (i m : Nat) : List String → Nat → List Event
  | _, 0 => [Event.synthErr i]
  | [], _ + 1 => [Event.synthErr i]
  | _ :: ts, j + 1 => Event.synthOk i :: Event.ended m :: drainFail (m + 1) (m + 2) ts j

/-- Trace produced by `drainFail`. -/
def drainFailTrace (m : Nat) (cur : String) : List String → Nat → List Obs
  | _, 0 => [Obs.errorSet, Obs.speakingSet false]
  | [], _ + 1 => [Obs.errorSet, Obs.speakingSet false]
  | t :: ts, j + 1 =>
    Obs.decodeCall 24000 1 :: Obs.playStart m cur :: Obs.synthRequest t ::
      drainFailTrace (m + 2) t ts j

/-- Invariant of stop-clean executions: every playing source is the one
held by `audioSourceRef`, still has its completion callback, and
coexists with no in-flight synthesis call and with `isSpeaking` true; at
most one synthesis call is in flight; a non-speaking state has none;
source identifiers are distinct and, like pending request identifiers,
below the fresh counter. -/
def PipelineInv (s : PipelineState) : Prop :=
  (∀ p ∈ s.sources, p.snd.playing = true →
    s.sourceRef = some p.fst ∧ p.snd.onendedAttached = true ∧
    s.pendingSynth = [] ∧ s.isSpeaking = true) ∧
  s.pendingSynth.length ≤ 1 ∧
  (s.isSpeaking = false → s.pendingSynth = []) ∧
  (s.sources.map Prod.fst).Nodup ∧
  (∀ p ∈ s.sources, p.fst < s.nextId) ∧
  (∀ p ∈ s.pendingSynth, p.fst < s.nextId)

/-- The effect of `stopPlayback` on the context handle: suspend it when
present and not closed. -/
def suspendCtx : Option CtxSt -> Option CtxSt
  | none => none
  | some c => if c == CtxSt.closed then some c else some CtxSt.suspended

/-- The effect of `stopPlayback` on the source list: stop and detach the
node held by the ref, if any. -/
def detachSources (srcs : List (Nat × Source)) : Option Nat -> List (Nat × Source)
  | none => srcs
  | some i =>
    srcs.map (fun (p : Nat × Source) =>
      if p.fst == i then (p.fst, { playing := false, onendedAttached := false }) else p)

/-! ### Claim theorems: direct computations and algebraic facts -/

/-- Claim C4: `stop()` is idempotent.  For every pipeline state, running
`stopPlayback` twice yields the same state as running it once: the
second call finds no source (no double release) and only repeats the
flag resets. -/
theorem claim_C4 (s : PipelineState) :
    (stopPlayback (stopPlayback s).1).1 = (stopPlayback s).1 := by
  rcases s with ⟨q, st, sp, ctx, srcs, ref, pend, em, nid⟩
  rcases ref with _ | i <;> rcases ctx with _ | (_ | _ | _) <;>
    simp [stopPlayback]

/-- Claim C10: if the segment dequeued from the head of the queue is the
empty string, `playNextInQueue` removes it and returns immediately: no
synthesis request, no playback, no recursion into the remaining
segments, no change to `isSpeaking` (the state changes only in the
queue field, and the action trace is empty). -/
theorem claim_C10 (s : PipelineState) (rest : List String)
    (hstop : s.stoppedManually = false) (hq : s.queue = "" :: rest) :
    (playNextInQueue s).1 = { s with queue := rest } ∧
    (playNextInQueue s).2 = [] := by
  simp [playNextInQueue, hstop, hq]

/-- Witness for claim C10: a session whose queue holds an empty segment
followed by "A" halts on the empty segment with `isSpeaking` left true
and "A" still queued. -/
theorem claim_C10_witness :
    (playNextInQueue { initState with queue := ["", "A"], isSpeaking := true }).1 =
      { initState with queue := ["A"], isSpeaking := true } ∧
    (playNextInQueue { initState with queue := ["", "A"], isSpeaking := true }).2 = [] :=
  claim_C10 { initState with queue := ["", "A"], isSpeaking := true } ["A"] rfl rfl

/-- Claim C9: `getTextToSpeechAudio` fails exactly when the remote call
rejects or the response carries no audio payload (the optional chain
yields nothing, or an empty string, which the falsy check treats as no
payload); otherwise it returns the Base64 data from the response. -/
theorem claim_C9 (o : TtsOutcome) :
    (isErrResult (getTextToSpeechAudio o) = true ↔
      o = TtsOutcome.requestError ∨ o = TtsOutcome.response none ∨
        o = TtsOutcome.response (some "")) ∧
    (∀ s : String, o = TtsOutcome.response (some s) → s ≠ "" →
      getTextToSpeechAudio o = Except.ok s) := by
  rcases o with _ | data
  · simp [getTextToSpeechAudio, isErrResult]
  · rcases data with _ | s
    · simp [getTextToSpeechAudio, isErrResult]
    · by_cases hs : s = "" <;> simp [getTextToSpeechAudio, isErrResult, hs]

/-- Witness for claim C9: a response with payload "QUJD" succeeds with
that payload; a response with a missing payload fails. -/
theorem claim_C9_witness :
    getTextToSpeechAudio (TtsOutcome.response (some "QUJD")) = Except.ok "QUJD" ∧
    isErrResult (getTextToSpeechAudio (TtsOutcome.response none)) = true :=
  ⟨(claim_C9 (TtsOutcome.response (some "QUJD"))).2 "QUJD" rfl (by decide),
   (claim_C9 (TtsOutcome.response none)).1.mpr (Or.inr (Or.inl rfl))⟩

/-- Claim C8 (code bug): `FinanceAdvisor` implements the playback
pipeline but registers no teardown hook, so destroying the view while
its synthesized audio plays leaves the source node playing (and
`isSpeaking` true); `InvestmentPredictor`, by contrast, stops its source
on unmount. -/
theorem claim_C8_codebug :
    faActiveCount (financeAdvisorUnmount
      (faRun faInitState [FAEvent.speak "T", FAEvent.synthOk 0]).1) = 1 ∧
    (financeAdvisorUnmount
      (faRun faInitState [FAEvent.speak "T", FAEvent.synthOk 0]).1).isSpeaking = true ∧
    activeCount (investmentPredictorUnmount
      (run initState [Event.speak ["T"], Event.synthOk 0]).1) = 0 := by
  decide

/-- Counterexample to claim C1 as stated: `stop()` is invoked while the
synthesis of segment "A" is in flight (before it resolves), yet when the
call resolves the segment is decoded and played: the playback invocation
count is 1, not 0, and the play start appears in the trace after the
stop.  The flag is only checked at the top of `playNextInQueue`, not
after the `await`. -/
theorem claim_C1_counterexample :
    (run initState [Event.speak ["A"], Event.stop, Event.synthOk 0]).2 =
      [Obs.speakingSet true, Obs.synthRequest "A", Obs.speakingSet false,
       Obs.decodeCall 24000 1, Obs.playStart 1 "A"] ∧
    playCount (run initState [Event.speak ["A"], Event.stop, Event.synthOk 0]).2 = 1 ∧
    activeCount (run initState [Event.speak ["A"], Event.stop, Event.synthOk 0]).1 = 1 := by
  decide

/-- Counterexample to claim C2 as stated: stop during an in-flight
synthesis leaves a detached source playing once the call resolves; a
second `handleSpeak` then starts a second source while the first still
plays: two Audio Output Resources are active at once. -/
theorem claim_C2_counterexample :
    activeCount (run initState
      [Event.speak ["A"], Event.stop, Event.synthOk 0,
       Event.speak ["B"], Event.synthOk 2]).1 = 2 := by
  decide

/-- Counterexample to claim C3 as stated: for the non-empty segment list
containing exactly one segment, the empty string, the pipeline makes
zero synthesis calls (not one per segment): the dequeued falsy text
returns before requesting synthesis, and the run is already quiescent
(no pending call, nothing playing). -/
theorem claim_C3_counterexample :
    synthRequestsOf (run initState [Event.speak [""]]).2 = [] ∧
    (run initState [Event.speak [""]]).1.pendingSynth = [] ∧
    (run initState [Event.speak [""]]).1.isSpeaking = true := by
  decide

/-! ### List helpers -/

/-- A map that fixes every element of a list is the identity on it. -/
theorem listMapId {α : Type} (l : List α) (f : α → α) (h : ∀ x ∈ l, f x = x) :
    l.map f = l := by
  induction l with
  | nil => rfl
  | cons a t ih =>
    simp only [List.map_cons, h a (by simp)]
    rw [ih (fun x hx => h x (by simp [hx]))]

/-- `find?` misses a list on which the predicate is everywhere false. -/
theorem listFindNone {α : Type} (l : List α) (p : α → Bool) (h : ∀ x ∈ l, p x = false) :
    l.find? p = none := by
  induction l with
  | nil => rfl
  | cons a t ih =>
    rw [List.find?_cons_of_neg _ (by simp [h a (by simp)]),
        ih (fun x hx => h x (by simp [hx]))]

/-- `find?` over an append skips a left part it misses. -/
theorem listFindAppend {α : Type} (l1 l2 : List α) (p : α → Bool) (h : l1.find? p = none) :
    (l1 ++ l2).find? p = l2.find? p := by
  induction l1 with
  | nil => rfl
  | cons a t ih =>
    by_cases hpa : p a = true
    · rw [List.find?_cons_of_pos _ hpa] at h; exact absurd h (by simp)
    · rw [List.find?_cons_of_neg _ hpa] at h
      rw [List.cons_append, List.find?_cons_of_neg _ hpa, ih h]

/-- A list of length at most one containing an element is that singleton. -/
theorem listSingleton {α : Type} (l : List α) (q : α) (hlen : l.length ≤ 1) (hq : q ∈ l) :
    l = [q] := by
  match l with
  | [] => cases hq
  | [a] => simp at hq; rw [hq]
  | a :: b :: t => simp at hlen

/-- The first component survives the guarded replacement used for
stopping a source. -/
theorem fstGuard (q : Nat × Source) (i : Nat) (x : Source) :
    ((if q.fst == i then (q.fst, x) else q) : Nat × Source).fst = q.fst := by
  by_cases h : q.fst == i <;> simp [h]

/-- The guarded replacement used for stopping a source preserves the list
of identifiers. -/
theorem mapFstGuard (l : List (Nat × Source)) (i : Nat) (f : Nat × Source → Source) :
    (l.map (fun p => if p.fst == i then (p.fst, f p) else p)).map Prod.fst =
      l.map Prod.fst := by
  induction l with
  | nil => rfl
  | cons a t ih =>
    simp only [List.map_cons]
    rw [ih]
    by_cases h : a.fst == i <;> simp [h]

/-- The effect of the post-await continuation on the state, with the four
context cases (create, recreate, resume, reuse) collapsed to their common
result: a running context and a fresh playing source held by the ref. -/
theorem synthResolveOk_eq (s : PipelineState) (text : String) :
    synthResolveOk s text =
      ({ s with ctx := some CtxSt.running,
                sources := s.sources ++
                  [(s.nextId, { playing := true, onendedAttached := true })],
                sourceRef := some s.nextId,
                nextId := s.nextId + 1 },
       [Obs.decodeCall 24000 1, Obs.playStart s.nextId text]) := by
  rcases s with ⟨q, st, sp, ctx, srcs, ref, pend, em, nid⟩
  rcases ctx with _ | (_ | _ | _) <;> simp [synthResolveOk]

/-! ### After a stop: no further queue progress -/

/-- `stopPlayback` leaves the queue empty and `isSpeaking` false. -/
theorem stopPlayback_base (s : PipelineState) :
    (stopPlayback s).1.queue = [] ∧ (stopPlayback s).1.isSpeaking = false := by
  rcases s with ⟨q, st, sp, ctx, srcs, ref, pend, em, nid⟩
  rcases ref with _ | i <;> rcases ctx with _ | (_ | _ | _) <;>
    simp [stopPlayback]

/-- Any event other than a new speak click preserves an empty queue and
`isSpeaking = false`, and emits no synthesis request. -/
theorem postStopStep (s : PipelineState) (e : Event)
    (hq : s.queue = []) (hs : s.isSpeaking = false) (he : isSpeakEv e = false) :
    (stepEv s e).1.queue = [] ∧ (stepEv s e).1.isSpeaking = false ∧
    synthRequestsOf (stepEv s e).2 = [] := by
  rcases e with segs | _ | i | i | i
  · simp [isSpeakEv] at he
  · refine ⟨(stopPlayback_base s).1, (stopPlayback_base s).2, ?_⟩
    rcases s with ⟨q, st, sp, ctx, srcs, ref, pend, em, nid⟩
    rcases ref with _ | j <;> rcases ctx with _ | (_ | _ | _) <;>
      simp [stepEv, stopPlayback, synthRequestsOf]
  · rcases hfind : s.pendingSynth.find? (fun p => p.fst == i) with _ | q
    · simp [stepEv, hfind, hq, hs, synthRequestsOf]
    · simp [stepEv, hfind, synthResolveOk_eq, hq, hs, synthRequestsOf]
  · rcases hfind : s.pendingSynth.find? (fun p => p.fst == i) with _ | q
    · simp [stepEv, hfind, hq, hs, synthRequestsOf]
    · simp [stepEv, hfind, synthResolveErr, hq, hs, synthRequestsOf]
  · rcases hfind : s.sources.find? (fun p => p.fst == i) with _ | q
    · simp [stepEv, sourceEnded, hfind, hq, hs, synthRequestsOf]
    · rcases hplay : q.snd.playing with _ | _
      · simp [stepEv, sourceEnded, hfind, hplay, hq, hs, synthRequestsOf]
      · rcases hatt : q.snd.onendedAttached with _ | _
        · simp [stepEv, sourceEnded, hfind, hplay, hatt, hq, hs, synthRequestsOf]
        · simp [stepEv, sourceEnded, hfind, hplay, hatt, playNextInQueue, hq,
                synthRequestsOf]

/-- After any execution of `stopPlayback`, a continuation free of new
speak clicks never emits a synthesis request, and the queue stays empty
with `isSpeaking` false. -/
theorem postStopRun (es : List Event) :
    ∀ s : PipelineState, (∀ e ∈ es, isSpeakEv e = false) →
    s.queue = [] → s.isSpeaking = false →
    (run s es).1.queue = [] ∧ (run s es).1.isSpeaking = false ∧
    synthRequestsOf (run s es).2 = [] := by
  induction es with
  | nil => intro s _ hq hs; exact ⟨hq, hs, rfl⟩
  | cons e es ih =>
    intro s he hq hs
    have h1 := postStopStep s e hq hs (he e (by simp))
    have h2 := ih (stepEv s e).1 (fun x hx => he x (by simp [hx])) h1.1 h1.2.1
    refine ⟨h2.1, h2.2.1, ?_⟩
    simp [run, synthRequestsOf, List.filterMap_append] at *
    exact ⟨h1.2.2, h2.2.2⟩

/-- Claim C1, amended: after `stop()` is invoked, no later `advance`
makes queue progress — in any continuation without a new speak click the
pipeline never issues another synthesis request, the queue stays empty
and `isSpeaking` stays false.  However (see the counterexample) a
synthesis call already in flight at the stop still plays its segment
when it resolves; only requests, not in-flight resolutions, are
suppressed. -/
theorem claim_C1_amended (s : PipelineState) (post : List Event)
    (hpost : ∀ e ∈ post, isSpeakEv e = false) :
    synthRequestsOf (run (stopPlayback s).1 post).2 = [] ∧
    (run (stopPlayback s).1 post).1.isSpeaking = false ∧
    (run (stopPlayback s).1 post).1.queue = [] := by
  have h := postStopRun post (stopPlayback s).1 hpost
    (stopPlayback_base s).1 (stopPlayback_base s).2
  exact ⟨h.2.2, h.2.1, h.1⟩

/-- Witness for the amended claim C1: stopping while the synthesis of
"A" is in flight, the resolution of that call triggers no synthesis
request and leaves `isSpeaking` false. -/
theorem claim_C1_amended_witness :
    synthRequestsOf (run (stopPlayback
      (run initState [Event.speak ["A"]]).1).1 [Event.synthOk 0]).2 = [] ∧
    (run (stopPlayback
      (run initState [Event.speak ["A"]]).1).1 [Event.synthOk 0]).1.isSpeaking = false ∧
    (run (stopPlayback
      (run initState [Event.speak ["A"]]).1).1 [Event.synthOk 0]).1.queue = [] :=
  claim_C1_amended (run initState [Event.speak ["A"]]).1 [Event.synthOk 0]
    (by decide)

/-! ### Evaluation of the canonical uninterrupted run -/

/-- Resolving the sole in-flight request `(i, cur)` in a mid-session
state: it produces source `m`, held by the ref, and empties the pending
list. -/
theorem synthOkEval (i m : Nat) (cur : String) (q : List String) (ctx : Option CtxSt)
    (em : Option String) (ref : Option Nat) (srcs : List (Nat × Source)) :
    stepEv ⟨q, false, true, ctx, srcs, ref, [(i, cur)], em, m⟩ (Event.synthOk i) =
      (⟨q, false, true, some CtxSt.running,
        srcs ++ [(m, ⟨true, true⟩)], some m, [], em, m + 1⟩,
       [Obs.decodeCall 24000 1, Obs.playStart m cur]) := by
  simp [stepEv, List.find?, synthResolveOk_eq, List.filter]

/-- Natural end of the freshly created source `m`: it is found behind the
older (smaller-identifier) sources, marked as no longer playing, and its
attached callback clears the ref and advances the queue. -/
theorem endedEval (m : Nat) (q : List String) (em : Option String)
    (srcs : List (Nat × Source)) (hsrc : ∀ p ∈ srcs, p.fst < m) :
    stepEv ⟨q, false, true, some CtxSt.running,
        srcs ++ [(m, ⟨true, true⟩)], some m, [], em, m + 1⟩ (Event.ended m) =
      playNextInQueue ⟨q, false, true, some CtxSt.running,
        srcs ++ [(m, ⟨false, true⟩)], none, [], em, m + 1⟩ := by
  have hmiss : ∀ p ∈ srcs, (p.fst == m) = false := by
    intro p hp
    have := hsrc p hp
    simp only [beq_eq_false_iff_ne]
    omega
  have hfind : (srcs ++ [(m, (⟨true, true⟩ : Source))]).find?
      (fun p => p.fst == m) = some (m, ⟨true, true⟩) := by
    rw [listFindAppend _ _ _ (listFindNone _ _ hmiss)]
    simp [List.find?]
  simp only [stepEv, sourceEnded, hfind]
  simp only [List.map_append]
  simp
  have hmap2 : List.map (fun (p : Nat × Source) =>
      if p.fst = m then (p.fst, { playing := false, onendedAttached := p.snd.onendedAttached })
      else p) srcs = srcs :=
    listMapId _ _ (fun p hp => if_neg (by have := hsrc p hp; omega))
  rw [hmap2]

/-- Advancing an empty queue mid-session terminates the session. -/
theorem advanceNilEval (ctx : Option CtxSt) (em : Option String)
    (srcs : List (Nat × Source)) (m : Nat) :
    playNextInQueue ⟨([] : List String), false, true, ctx, srcs, none, [], em, m⟩ =
      (⟨[], false, false, ctx, srcs, none, [], em, m⟩, [Obs.speakingSet false]) := by
  simp [playNextInQueue]

/-- Advancing a non-empty queue mid-session dequeues the head and issues
its synthesis request. -/
theorem advanceConsEval (t : String) (ts : List String) (ht : ¬ (t = ""))
    (ctx : Option CtxSt) (em : Option String) (srcs : List (Nat × Source)) (m : Nat) :
    playNextInQueue ⟨t :: ts, false, true, ctx, srcs, none, [], em, m⟩ =
      (⟨ts, false, true, ctx, srcs, none, [(m, t)], em, m + 1⟩,
       [Obs.synthRequest t]) := by
  simp [playNextInQueue, ht]

/-- The canonical uninterrupted run: starting mid-session with one
in-flight request `(i, cur)`, remaining queue `q` of non-empty segments
and fresh counter `m`, the schedule `drain i m q` produces exactly the
canonical trace, and ends not speaking, with an empty queue, nothing in
flight and nothing playing. -/
theorem drainRun (q : List String) :
    ∀ (i m : Nat) (cur : String) (ctx : Option CtxSt) (em : Option String)
      (ref : Option Nat) (srcs : List (Nat × Source)),
    (∀ t ∈ q, t ≠ "") →
    (∀ p ∈ srcs, p.snd.playing = false ∧ p.fst < m) →
    (run ⟨q, false, true, ctx, srcs, ref, [(i, cur)], em, m⟩ (drain i m q)).2 =
        drainTrace m cur q ∧
    (run ⟨q, false, true, ctx, srcs, ref, [(i, cur)], em, m⟩ (drain i m q)).1.isSpeaking
        = false ∧
    (run ⟨q, false, true, ctx, srcs, ref, [(i, cur)], em, m⟩ (drain i m q)).1.queue = [] ∧
    (run ⟨q, false, true, ctx, srcs, ref, [(i, cur)], em, m⟩ (drain i m q)).1.pendingSynth
        = [] ∧
    ∀ p ∈ (run ⟨q, false, true, ctx, srcs, ref, [(i, cur)], em, m⟩
        (drain i m q)).1.sources, p.snd.playing = false := by
  induction q with
  | nil =>
    intro i m cur ctx em ref srcs hq hsrc
    rw [drain]
    simp only [run]
    rw [synthOkEval, endedEval m [] em srcs (fun p hp => (hsrc p hp).2),
        advanceNilEval]
    refine ⟨by simp [drainTrace], rfl, rfl, rfl, ?_⟩
    intro p hp
    rcases List.mem_append.mp hp with h | h
    · exact (hsrc p h).1
    · rw [List.mem_singleton] at h
      subst h
      rfl
  | cons t ts ih =>
    intro i m cur ctx em ref srcs hq hsrc
    have ht : ¬ (t = "") := hq t (by simp)
    rw [drain]
    simp only [run]
    rw [synthOkEval, endedEval m (t :: ts) em srcs (fun p hp => (hsrc p hp).2),
        advanceConsEval t ts ht]
    have hsrc2 : ∀ p ∈ srcs ++ [(m, (⟨false, true⟩ : Source))],
        p.snd.playing = false ∧ p.fst < m + 1 + 1 := by
      intro p hp
      rcases List.mem_append.mp hp with h | h
      · exact ⟨(hsrc p h).1, by have := (hsrc p h).2; omega⟩
      · rw [List.mem_singleton] at h
        subst h
        exact ⟨rfl, by omega⟩
    have hih := ih (m + 1) (m + 1 + 1) t (some CtxSt.running) em none
      (srcs ++ [(m, ⟨false, true⟩)]) (fun x hx => hq x (by simp [hx])) hsrc2
    refine ⟨?_, hih.2.1, hih.2.2.1, hih.2.2.2.1, hih.2.2.2.2⟩
    rw [hih.1]
    simp [drainTrace]

/-- A cons keeps the last element of a non-empty tail. -/
theorem listGetLastConsSome {α : Type} (a x : α) (l : List α) (h : l.getLast? = some x) :
    (a :: l).getLast? = some x := by
  cases l with
  | nil => simp at h
  | cons b t => rw [List.getLast?_cons_cons]; exact h

/-- Properties of the canonical trace: one synthesis request per queued
segment in order, exactly one `setIsSpeaking false`, and it is the final
action. -/
theorem drainTraceProps (q : List String) :
    ∀ (m : Nat) (cur : String),
    synthRequestsOf (drainTrace m cur q) = q ∧
    ((drainTrace m cur q).filter (fun a => a == Obs.speakingSet false)).length = 1 ∧
    (drainTrace m cur q).getLast? = some (Obs.speakingSet false) := by
  induction q with
  | nil =>
    intro m cur
    refine ⟨by simp [drainTrace, synthRequestsOf], by simp [drainTrace], by simp [drainTrace]⟩
  | cons t ts ih =>
    intro m cur
    have h := ih (m + 2) t
    refine ⟨?_, ?_, ?_⟩
    · simp only [drainTrace, synthRequestsOf] at h ⊢
      simp [h.1]
    · simp only [drainTrace]
      rw [List.filter_cons_of_neg (by simp), List.filter_cons_of_neg (by simp),
          List.filter_cons_of_neg (by simp)]
      exact h.2.1
    · rw [drainTrace]
      exact listGetLastConsSome _ _ _ (listGetLastConsSome _ _ _
        (listGetLastConsSome _ _ _ h.2.2))

/-- First step of a session: a speak click on the idle initial state
marks speaking and requests synthesis of the first segment. -/
theorem speakEval (t : String) (ts : List String) (ht : ¬ (t = "")) :
    stepEv initState (Event.speak (t :: ts)) =
      (⟨ts, false, true, none, [], none, [(0, t)], none, 1⟩,
       [Obs.speakingSet true, Obs.synthRequest t]) := by
  simp only [stepEv, handleSpeak, initState]
  rw [if_neg (by simp : ¬ (false = true)), advanceConsEval t ts ht]

/-- Claim C6: in a session over non-empty segments that plays every
segment to natural completion (no stop, no error), `isSpeaking` is set
to false exactly once, as the very last observable action (after the
last playback), the session ends not speaking, and any speak-free
continuation issues no further synthesis request and stays not
speaking. -/
theorem claim_C6 (t : String) (ts : List String) (ht : t ≠ "")
    (hts : ∀ x ∈ ts, x ≠ "") :
    (((run initState (Event.speak (t :: ts) :: drain 0 1 ts)).2).filter
        (fun a => a == Obs.speakingSet false)).length = 1 ∧
    ((run initState (Event.speak (t :: ts) :: drain 0 1 ts)).2).getLast? =
        some (Obs.speakingSet false) ∧
    (run initState (Event.speak (t :: ts) :: drain 0 1 ts)).1.isSpeaking = false ∧
    ∀ post, (∀ e ∈ post, isSpeakEv e = false) →
      synthRequestsOf
        (run (run initState (Event.speak (t :: ts) :: drain 0 1 ts)).1 post).2 = [] ∧
      (run (run initState (Event.speak (t :: ts) :: drain 0 1 ts)).1 post).1.isSpeaking
        = false := by
  have hd := drainRun ts 0 1 t none none none [] hts (by simp)
  have hrun : run initState (Event.speak (t :: ts) :: drain 0 1 ts) =
      ((run ⟨ts, false, true, none, [], none, [(0, t)], none, 1⟩ (drain 0 1 ts)).1,
       [Obs.speakingSet true, Obs.synthRequest t] ++
         (run ⟨ts, false, true, none, [], none, [(0, t)], none, 1⟩ (drain 0 1 ts)).2) := by
    simp only [run, speakEval t ts ht]
  rw [hrun]
  have hprops := drainTraceProps ts 1 t
  refine ⟨?_, ?_, hd.2.1, ?_⟩
  · rw [hd.1]
    simp only [List.cons_append, List.nil_append]
    rw [List.filter_cons_of_neg (by simp), List.filter_cons_of_neg (by simp)]
    exact hprops.2.1
  · rw [hd.1]
    simp only [List.cons_append, List.nil_append]
    exact listGetLastConsSome _ _ _ (listGetLastConsSome _ _ _ hprops.2.2)
  · intro post hpost
    have h := postStopRun post _ hpost hd.2.2.1 hd.2.1
    exact ⟨h.2.2, h.2.1⟩

/-- Witness for claim C6 at the concrete session of spec section 8
item 7: segments ["A", "B"]. -/
theorem claim_C6_witness :
    (((run initState (Event.speak ["A", "B"] :: drain 0 1 ["B"])).2).filter
        (fun a => a == Obs.speakingSet false)).length = 1 ∧
    ((run initState (Event.speak ["A", "B"] :: drain 0 1 ["B"])).2).getLast? =
        some (Obs.speakingSet false) ∧
    (run initState (Event.speak ["A", "B"] :: drain 0 1 ["B"])).1.isSpeaking = false ∧
    ∀ post, (∀ e ∈ post, isSpeakEv e = false) →
      synthRequestsOf
        (run (run initState (Event.speak ["A", "B"] :: drain 0 1 ["B"])).1 post).2 = [] ∧
      (run (run initState (Event.speak ["A", "B"] :: drain 0 1 ["B"])).1 post).1.isSpeaking
        = false :=
  claim_C6 "A" ["B"] (by decide) (by decide)

/-- Rejection of the sole in-flight request `(i, cur)`: the catch block
reports the error and resets `isSpeaking`, leaving the remaining queue
behind but scheduling nothing further. -/
theorem synthErrEval (i m : Nat) (cur : String) (q : List String) (ctx : Option CtxSt)
    (em : Option String) (ref : Option Nat) (srcs : List (Nat × Source)) :
    stepEv ⟨q, false, true, ctx, srcs, ref, [(i, cur)], em, m⟩ (Event.synthErr i) =
      (⟨q, false, false, ctx, srcs, ref, [],
        some "Failed to generate or play audio for a segment.", m⟩,
       [Obs.errorSet, Obs.speakingSet false]) := by
  simp [stepEv, List.find?, List.filter, synthResolveErr]

/-- Properties of the failing canonical trace: exactly one error report,
and one synthesis request for each of the first `j` queued segments, in
order. -/
theorem drainFailTraceProps (j : Nat) :
    ∀ (q : List String) (m : Nat) (cur : String),
    errorCount (drainFailTrace m cur q j) = 1 ∧
    synthRequestsOf (drainFailTrace m cur q j) = q.take j := by
  induction j with
  | zero =>
    intro q m cur
    cases q <;> simp [drainFailTrace, errorCount, synthRequestsOf]
  | succ j ih =>
    intro q m cur
    cases q with
    | nil => simp [drainFailTrace, errorCount, synthRequestsOf]
    | cons t ts =>
      have h := ih ts (m + 2) t
      simp only [drainFailTrace, errorCount, synthRequestsOf] at h ⊢
      simp [h.1, h.2]

/-- Characterization of `stopPlayback`: empty the queue, set the flag,
detach the held source, suspend the context, reset `isSpeaking`, and
report the single `setIsSpeaking false` call. -/
theorem stopPlayback_eq (s : PipelineState) :
    stopPlayback s =
      (⟨[], true, false, suspendCtx s.ctx, detachSources s.sources s.sourceRef, none,
        s.pendingSynth, s.errorMsg, s.nextId⟩, [Obs.speakingSet false]) := by
  rcases s with ⟨q, st, sp, ctx, srcs, ref, pend, em, nid⟩
  rcases ref with _ | j <;> rcases ctx with _ | (_ | _ | _) <;>
    simp [stopPlayback, suspendCtx, detachSources]

/-- Detaching preserves deadness of every source. -/
theorem detachSourcesDead (srcs : List (Nat × Source)) (ref : Option Nat)
    (hp : ∀ p ∈ srcs, p.snd.playing = false) :
    ∀ p ∈ detachSources srcs ref, p.snd.playing = false := by
  rcases ref with _ | j
  · exact hp
  · intro p hp'
    simp only [detachSources] at hp'
    obtain ⟨r, hr, hrp⟩ := List.mem_map.mp hp'
    cases hri : (r.fst == j) with
    | true => rw [← hrp]; simp [hri]
    | false => rw [← hrp]; simp only [hri]; simpa using hp r hr

/-- Synthesis requests of a concatenated trace. -/
theorem synthRequestsOfAppend (l1 l2 : List Obs) :
    synthRequestsOf (l1 ++ l2) = synthRequestsOf l1 ++ synthRequestsOf l2 := by
  simp [synthRequestsOf]

/-- Error reports of a concatenated trace. -/
theorem errorCountAppend (l1 l2 : List Obs) :
    errorCount (l1 ++ l2) = errorCount l1 + errorCount l2 := by
  simp [errorCount]

/-- A quiescent state (nothing in flight, nothing playing, not speaking)
stays quiescent under any event other than a speak click, emitting
neither synthesis requests nor error reports. -/
theorem quiescentStep (s : PipelineState) (e : Event)
    (hq : s.pendingSynth = []) (hp : ∀ p ∈ s.sources, p.snd.playing = false)
    (hs : s.isSpeaking = false) (he : isSpeakEv e = false) :
    (stepEv s e).1.pendingSynth = [] ∧
    (∀ p ∈ (stepEv s e).1.sources, p.snd.playing = false) ∧
    (stepEv s e).1.isSpeaking = false ∧
    synthRequestsOf (stepEv s e).2 = [] ∧
    errorCount (stepEv s e).2 = 0 := by
  rcases e with segs | _ | i | i | i
  · simp [isSpeakEv] at he
  · rw [show stepEv s Event.stop = stopPlayback s from rfl, stopPlayback_eq]
    exact ⟨hq, detachSourcesDead s.sources s.sourceRef hp, rfl, rfl, rfl⟩
  · have hstep : stepEv s (Event.synthOk i) = (s, []) := by
      simp [stepEv, hq, List.find?]
    rw [hstep]
    exact ⟨hq, hp, hs, rfl, rfl⟩
  · have hstep : stepEv s (Event.synthErr i) = (s, []) := by
      simp [stepEv, hq, List.find?]
    rw [hstep]
    exact ⟨hq, hp, hs, rfl, rfl⟩
  · rcases hfind : s.sources.find? (fun p => p.fst == i) with _ | q
    · have hstep : stepEv s (Event.ended i) = (s, []) := by
        simp [stepEv, sourceEnded, hfind]
      rw [hstep]
      exact ⟨hq, hp, hs, rfl, rfl⟩
    · have hdead := hp q (List.mem_of_find?_eq_some hfind)
      have hstep : stepEv s (Event.ended i) = (s, []) := by
        simp [stepEv, sourceEnded, hfind, hdead]
      rw [hstep]
      exact ⟨hq, hp, hs, rfl, rfl⟩

/-- A quiescent state stays quiescent under any speak-free continuation:
no synthesis request and no error report is ever emitted again. -/
theorem quiescentRun (es : List Event) :
    ∀ s : PipelineState, (∀ e ∈ es, isSpeakEv e = false) →
    s.pendingSynth = [] → (∀ p ∈ s.sources, p.snd.playing = false) →
    s.isSpeaking = false →
    (run s es).1.isSpeaking = false ∧
    synthRequestsOf (run s es).2 = [] ∧
    errorCount (run s es).2 = 0 := by
  induction es with
  | nil => intro s _ _ _ hs; exact ⟨hs, rfl, rfl⟩
  | cons e es ih =>
    intro s he hq hp hs
    have h1 := quiescentStep s e hq hp hs (he e (by simp))
    have h2 := ih (stepEv s e).1 (fun x hx => he x (by simp [hx])) h1.1 h1.2.1 h1.2.2.1
    refine ⟨h2.1, ?_, ?_⟩
    · show synthRequestsOf ((stepEv s e).2 ++ (run (stepEv s e).1 es).2) = []
      rw [synthRequestsOfAppend, h1.2.2.2.1, h2.2.1]
      rfl
    · show errorCount ((stepEv s e).2 ++ (run (stepEv s e).1 es).2) = 0
      rw [errorCountAppend, h1.2.2.2.2, h2.2.2]

/-- The canonical failing run: starting mid-session with one in-flight
request, `j` further segments synthesize and play normally, then the
next synthesis call rejects.  The trace is the canonical failing trace
and the session ends not speaking, with nothing in flight and nothing
playing (the undelivered queue remainder is simply never touched
again). -/
theorem drainFailRun (j : Nat) :
    ∀ (q : List String) (i m : Nat) (cur : String) (ctx : Option CtxSt)
      (em : Option String) (ref : Option Nat) (srcs : List (Nat × Source)),
    (∀ t ∈ q.take j, t ≠ "") →
    (∀ p ∈ srcs, p.snd.playing = false ∧ p.fst < m) →
    (run ⟨q, false, true, ctx, srcs, ref, [(i, cur)], em, m⟩ (drainFail i m q j)).2 =
        drainFailTrace m cur q j ∧
    (run ⟨q, false, true, ctx, srcs, ref, [(i, cur)], em, m⟩
        (drainFail i m q j)).1.isSpeaking = false ∧
    (run ⟨q, false, true, ctx, srcs, ref, [(i, cur)], em, m⟩
        (drainFail i m q j)).1.pendingSynth = [] ∧
    ∀ p ∈ (run ⟨q, false, true, ctx, srcs, ref, [(i, cur)], em, m⟩
        (drainFail i m q j)).1.sources, p.snd.playing = false := by
  induction j with
  | zero =>
    intro q i m cur ctx em ref srcs hq hsrc
    rw [show drainFail i m q 0 = [Event.synthErr i] by cases q <;> rfl]
    simp only [run]
    rw [synthErrEval]
    refine ⟨?_, rfl, rfl, fun p hp => (hsrc p hp).1⟩
    rw [show drainFailTrace m cur q 0 = [Obs.errorSet, Obs.speakingSet false]
      by cases q <;> rfl]
    rfl
  | succ j ih =>
    intro q i m cur ctx em ref srcs hq hsrc
    cases q with
    | nil =>
      rw [show drainFail i m [] (j + 1) = [Event.synthErr i] from rfl]
      simp only [run]
      rw [synthErrEval]
      exact ⟨rfl, rfl, rfl, fun p hp => (hsrc p hp).1⟩
    | cons t ts =>
      have ht : ¬ (t = "") := hq t (by simp)
      rw [show drainFail i m (t :: ts) (j + 1) =
        Event.synthOk i :: Event.ended m :: drainFail (m + 1) (m + 1 + 1) ts j from rfl]
      simp only [run]
      rw [synthOkEval, endedEval m (t :: ts) em srcs (fun p hp => (hsrc p hp).2),
          advanceConsEval t ts ht]
      have hsrc2 : ∀ p ∈ srcs ++ [(m, (⟨false, true⟩ : Source))],
          p.snd.playing = false ∧ p.fst < m + 1 + 1 := by
        intro p hp
        rcases List.mem_append.mp hp with h | h
        · exact ⟨(hsrc p h).1, by have := (hsrc p h).2; omega⟩
        · rw [List.mem_singleton] at h
          subst h
          exact ⟨rfl, by omega⟩
      have hih := ih ts (m + 1) (m + 1 + 1) t (some CtxSt.running) em none
        (srcs ++ [(m, ⟨false, true⟩)]) (fun x hx => hq x (by simp [hx])) hsrc2
      refine ⟨?_, hih.2.1, hih.2.2.1, hih.2.2.2⟩
      rw [hih.1]
      simp [drainFailTrace]

/-- Claim C5: in a session over segments whose first `j+1` entries are
non-empty text, if the synthesis (or decoding) of segment `k = j+1`
fails after segments `1..j` played normally, the run reports exactly one
error, requests synthesis only of segments `1..k` (so none of
`k+1..n`), and ends not speaking; moreover no speak-free continuation
ever requests another synthesis or reports another error. -/
theorem claim_C5 (t : String) (ts : List String) (j : Nat)
    (hj : j ≤ ts.length) (hne : ∀ x ∈ (t :: ts).take (j + 1), x ≠ "") :
    errorCount (run initState (Event.speak (t :: ts) :: drainFail 0 1 ts j)).2 = 1 ∧
    synthRequestsOf (run initState (Event.speak (t :: ts) :: drainFail 0 1 ts j)).2 =
      (t :: ts).take (j + 1) ∧
    (run initState (Event.speak (t :: ts) :: drainFail 0 1 ts j)).1.isSpeaking = false ∧
    ∀ post, (∀ e ∈ post, isSpeakEv e = false) →
      synthRequestsOf
        (run (run initState (Event.speak (t :: ts) :: drainFail 0 1 ts j)).1 post).2
        = [] ∧
      errorCount
        (run (run initState (Event.speak (t :: ts) :: drainFail 0 1 ts j)).1 post).2
        = 0 := by
  have ht : ¬ (t = "") := hne t (by simp)
  have hts : ∀ x ∈ ts.take j, x ≠ "" := fun x hx => hne x (by simp [hx])
  have hd := drainFailRun j ts 0 1 t none none none [] hts (by simp)
  have hrun : run initState (Event.speak (t :: ts) :: drainFail 0 1 ts j) =
      ((run ⟨ts, false, true, none, [], none, [(0, t)], none, 1⟩
          (drainFail 0 1 ts j)).1,
       [Obs.speakingSet true, Obs.synthRequest t] ++
         (run ⟨ts, false, true, none, [], none, [(0, t)], none, 1⟩
           (drainFail 0 1 ts j)).2) := by
    simp only [run, speakEval t ts ht]
  rw [hrun]
  have hprops := drainFailTraceProps j ts 1 t
  refine ⟨?_, ?_, hd.2.1, ?_⟩
  · rw [errorCountAppend, hd.1, hprops.1]
    rfl
  · rw [synthRequestsOfAppend, hd.1, hprops.2]
    simp [synthRequestsOf]
  · intro post hpost
    have h := quiescentRun post _ hpost hd.2.2.1 hd.2.2.2 hd.2.1
    exact ⟨h.2.1, h.2.2⟩

/-- Witness for claim C5: segments ["A", "B"] with the synthesis of
segment 1 failing: one error, only segment 1 requested, not speaking. -/
theorem claim_C5_witness :
    errorCount (run initState (Event.speak ["A", "B"] :: drainFail 0 1 ["B"] 0)).2 = 1 ∧
    synthRequestsOf
      (run initState (Event.speak ["A", "B"] :: drainFail 0 1 ["B"] 0)).2 =
      (["A", "B"] : List String).take 1 ∧
    (run initState (Event.speak ["A", "B"] :: drainFail 0 1 ["B"] 0)).1.isSpeaking
      = false ∧
    ∀ post, (∀ e ∈ post, isSpeakEv e = false) →
      synthRequestsOf
        (run (run initState (Event.speak ["A", "B"] :: drainFail 0 1 ["B"] 0)).1 post).2
        = [] ∧
      errorCount
        (run (run initState (Event.speak ["A", "B"] :: drainFail 0 1 ["B"] 0)).1 post).2
        = 0 :=
  claim_C5 "A" ["B"] 0 (by decide) (by decide)

/-! ### The at-most-one-active-source invariant -/

/-- A list with no playing source filters to nothing. -/
theorem filterNilOfNone (l : List (Nat × Source))
    (h : ∀ p ∈ l, p.snd.playing = false) :
    l.filter (fun p => p.snd.playing) = [] := by
  induction l with
  | nil => rfl
  | cons a t ih =>
    rw [List.filter_cons_of_neg (by simp [h a (by simp)])]
    exact ih (fun p hp => h p (by simp [hp]))

/-- With distinct identifiers, if every playing source carries the same
identifier `r`, at most one source is playing. -/
theorem filterLenLeOne (l : List (Nat × Source)) (r : Nat)
    (hnd : (l.map Prod.fst).Nodup)
    (h : ∀ p ∈ l, p.snd.playing = true → p.fst = r) :
    (l.filter (fun p => p.snd.playing)).length ≤ 1 := by
  induction l with
  | nil => simp
  | cons a t ih =>
    simp only [List.map_cons, List.nodup_cons] at hnd
    cases hpa : a.snd.playing with
    | false =>
      rw [List.filter_cons_of_neg (by simp [hpa])]
      exact ih hnd.2 (fun p hp hpl => h p (by simp [hp]) hpl)
    | true =>
      rw [List.filter_cons_of_pos (by simp [hpa])]
      have hfa : a.fst = r := h a (by simp) hpa
      have htnil : t.filter (fun p => p.snd.playing) = [] := by
        apply filterNilOfNone
        intro p hp
        cases hpl : p.snd.playing with
        | false => rfl
        | true =>
          exfalso
          have hpr : p.fst = r := h p (by simp [hp]) hpl
          exact hnd.1 (by rw [hfa, ← hpr]; exact List.mem_map_of_mem _ hp)
      simp [htnil]

/-- The initial state satisfies the invariant. -/
theorem pipelineInvInit : PipelineInv initState := by
  refine ⟨?_, ?_, ?_, ?_, ?_, ?_⟩ <;> simp [initState, PipelineInv]

/-- Under the invariant, at most one source is playing. -/
theorem activeCountLeOne (s : PipelineState) (hinv : PipelineInv s) :
    activeCount s ≤ 1 := by
  obtain ⟨h1, _, _, h4, _, _⟩ := hinv
  rcases href : s.sourceRef with _ | r
  · have hnil : s.sources.filter (fun p => p.snd.playing) = [] := by
      apply filterNilOfNone
      intro p hp
      cases hpl : p.snd.playing with
      | false => rfl
      | true =>
        exfalso
        have := (h1 p hp hpl).1
        rw [href] at this
        cases this
    simp [activeCount, hnil]
  · show (s.sources.filter (fun p => p.snd.playing)).length ≤ 1
    apply filterLenLeOne s.sources r h4
    intro p hp hpl
    have := (h1 p hp hpl).1
    rw [href] at this
    injection this with hh
    omega

/-- `stopPlayback` preserves the invariant when nothing is in flight. -/
theorem invStop (s : PipelineState) (hinv : PipelineInv s)
    (hq : s.pendingSynth = []) : PipelineInv (stopPlayback s).1 := by
  obtain ⟨h1, _, _, h4, h5, _⟩ := hinv
  rw [stopPlayback_eq]
  refine ⟨?_, ?_, ?_, ?_, ?_, ?_⟩
  · intro p hp hpl
    exfalso
    rcases href : s.sourceRef with _ | j
    · rw [href] at hp
      simp only [detachSources] at hp
      have := (h1 p hp hpl).1
      rw [href] at this
      cases this
    · rw [href] at hp
      simp only [detachSources] at hp
      obtain ⟨r, hr, hrp⟩ := List.mem_map.mp hp
      cases hri : (r.fst == j) with
      | true =>
        rw [hri] at hrp
        rw [← hrp] at hpl
        simp at hpl
      | false =>
        rw [hri] at hrp
        simp only [Bool.false_eq_true, if_false] at hrp
        rw [← hrp] at hpl
        have := (h1 r hr hpl).1
        rw [href] at this
        injection this with hh
        simp [hh] at hri
  · show s.pendingSynth.length ≤ 1
    rw [hq]
    simp
  · intro _
    exact hq
  · rcases href : s.sourceRef with _ | j
    · exact h4
    · show ((detachSources s.sources (some j)).map Prod.fst).Nodup
      simp only [detachSources]
      rw [mapFstGuard]
      exact h4
  · intro p hp
    rcases href : s.sourceRef with _ | j
    · rw [href] at hp
      exact h5 p hp
    · rw [href] at hp
      simp only [detachSources] at hp
      obtain ⟨r, hr, hrp⟩ := List.mem_map.mp hp
      have hfst : p.fst = r.fst := by
        rw [← hrp]
        cases hri : (r.fst == j) <;> simp [hri]
      rw [hfst]
      exact h5 r hr
  · intro p hp
    rw [hq] at hp
    cases hp

/-- `playNextInQueue` preserves the invariant when called from a
speaking state with nothing in flight and nothing playing (exactly the
situations in which the source invokes it: session start and a
completion callback). -/
theorem invAdvance (s : PipelineState) (hq : s.pendingSynth = [])
    (hp : ∀ p ∈ s.sources, p.snd.playing = false)
    (hnd : (s.sources.map Prod.fst).Nodup)
    (hb : ∀ p ∈ s.sources, p.fst < s.nextId)
    (hs : s.isSpeaking = true) :
    PipelineInv (playNextInQueue s).1 := by
  rcases s with ⟨qu, st, sp, ctx, srcs, ref, pend, em, nid⟩
  simp only at hq hp hnd hb hs
  subst hq
  subst hs
  cases st with
  | true =>
    simp only [playNextInQueue, Bool.true_or, if_true]
    exact ⟨fun p hp' hpl => absurd hpl (by simp [hp p hp']),
           by simp, fun _ => rfl, hnd, hb, by simp⟩
  | false =>
    rcases qu with _ | ⟨t, rest⟩
    · simp only [playNextInQueue, List.isEmpty_nil, Bool.or_true, if_true]
      exact ⟨fun p hp' hpl => absurd hpl (by simp [hp p hp']),
             by simp, fun _ => rfl, hnd, hb, by simp⟩
    · by_cases htt : t = ""
      · simp only [playNextInQueue, List.isEmpty_cons, Bool.or_false, if_false,
          Bool.false_eq_true, if_pos htt]
        exact ⟨fun p hp' hpl => absurd hpl (by simp [hp p hp']),
               by simp, fun _ => rfl, hnd, hb, by simp⟩
      · simp only [playNextInQueue, List.isEmpty_cons, Bool.or_false, if_false,
          Bool.false_eq_true, if_neg htt]
        refine ⟨fun p hp' hpl => absurd hpl (by simp [hp p hp']),
                by simp, by intro hf; simp at hf, hnd, ?_, ?_⟩
        · intro p hp'
          have := hb p hp'
          show p.fst < nid + 1
          omega
        · intro p hp'
          simp only [List.nil_append, List.mem_singleton] at hp'
          subst hp'
          show nid < nid + 1
          omega

/-- Every event preserves the invariant, provided `stopPlayback` is only
executed while no synthesis call is in flight. -/
theorem invStep (s : PipelineState) (e : Event) (hinv : PipelineInv s)
    (hstop : stopInvoked s e = true → s.pendingSynth = []) :
    PipelineInv (stepEv s e).1 := by
  obtain ⟨h1, h2, h3, h4, h5, h6⟩ := hinv
  rcases e with segs | _ | i | i | i
  · cases hsp : s.isSpeaking with
    | true =>
      have hq := hstop (by simp [stopInvoked, hsp])
      have hstep : stepEv s (Event.speak segs) = stopPlayback s := by
        simp [stepEv, handleSpeak, hsp]
      rw [hstep]
      exact invStop s ⟨h1, h2, h3, h4, h5, h6⟩ hq
    | false =>
      have hq := h3 hsp
      have hp : ∀ p ∈ s.sources, p.snd.playing = false := by
        intro p hp'
        cases hpl : p.snd.playing with
        | false => rfl
        | true =>
          exfalso
          have := (h1 p hp' hpl).2.2.2
          rw [hsp] at this
          cases this
      have hstep : (stepEv s (Event.speak segs)).1 =
          (playNextInQueue
            { s with errorMsg := none, isSpeaking := true,
                     stoppedManually := false, queue := segs }).1 := by
        simp [stepEv, handleSpeak, hsp]
      rw [hstep]
      exact invAdvance _ hq hp h4 h5 rfl
  · exact invStop s ⟨h1, h2, h3, h4, h5, h6⟩ (hstop rfl)
  · rcases hfind : s.pendingSynth.find? (fun p => p.fst == i) with _ | q
    · have hstep : stepEv s (Event.synthOk i) = (s, []) := by
        simp [stepEv, hfind]
      rw [hstep]
      exact ⟨h1, h2, h3, h4, h5, h6⟩
    · have hqmem := List.mem_of_find?_eq_some hfind
      have hsingle : s.pendingSynth = [q] := listSingleton _ _ h2 hqmem
      have hqi : q.fst = i := by simpa using List.find?_some hfind
      have hnoplay : ∀ p ∈ s.sources, p.snd.playing = false := by
        intro p hp'
        cases hpl : p.snd.playing with
        | false => rfl
        | true =>
          exfalso
          have := (h1 p hp' hpl).2.2.1
          rw [hsingle] at this
          cases this
      have hsp : s.isSpeaking = true := by
        cases hv : s.isSpeaking with
        | true => rfl
        | false =>
          exfalso
          have := h3 hv
          rw [hsingle] at this
          cases this
      have hfilter : s.pendingSynth.filter (fun p => p.fst != i) = [] := by
        rw [hsingle]
        simp [List.filter, hqi]
      have hstep : stepEv s (Event.synthOk i) =
          synthResolveOk { s with pendingSynth := [] } q.snd := by
        simp only [stepEv, hfind]
        rw [hfilter]
      rw [hstep, synthResolveOk_eq]
      refine ⟨?_, by simp, fun _ => rfl, ?_, ?_,
        fun p hp' => absurd hp' (List.not_mem_nil p)⟩
      · intro p hp' hpl
        rcases List.mem_append.mp hp' with h | h
        · exact absurd hpl (by simp [hnoplay p h])
        · rw [List.mem_singleton] at h
          subst h
          exact ⟨rfl, rfl, rfl, hsp⟩
      · show ((s.sources ++ [(s.nextId, (⟨true, true⟩ : Source))]).map Prod.fst).Nodup
        rw [List.map_append, List.nodup_append]
        refine ⟨h4, by simp, ?_⟩
        intro a ha hb'
        simp only [List.map_cons, List.map_nil, List.mem_singleton] at hb'
        obtain ⟨p, hp', hpa⟩ := List.mem_map.mp ha
        have := h5 p hp'
        omega
      · intro p hp'
        rcases List.mem_append.mp hp' with h | h
        · have := h5 p h
          show p.fst < s.nextId + 1
          omega
        · rw [List.mem_singleton] at h
          subst h
          show s.nextId < s.nextId + 1
          omega
  · rcases hfind : s.pendingSynth.find? (fun p => p.fst == i) with _ | q
    · have hstep : stepEv s (Event.synthErr i) = (s, []) := by
        simp [stepEv, hfind]
      rw [hstep]
      exact ⟨h1, h2, h3, h4, h5, h6⟩
    · have hqmem := List.mem_of_find?_eq_some hfind
      have hsingle : s.pendingSynth = [q] := listSingleton _ _ h2 hqmem
      have hqi : q.fst = i := by simpa using List.find?_some hfind
      have hnoplay : ∀ p ∈ s.sources, p.snd.playing = false := by
        intro p hp'
        cases hpl : p.snd.playing with
        | false => rfl
        | true =>
          exfalso
          have := (h1 p hp' hpl).2.2.1
          rw [hsingle] at this
          cases this
      have hfilter : s.pendingSynth.filter (fun p => p.fst != i) = [] := by
        rw [hsingle]
        simp [List.filter, hqi]
      have hstep : stepEv s (Event.synthErr i) =
          synthResolveErr { s with pendingSynth := [] } := by
        simp only [stepEv, hfind]
        rw [hfilter]
      rw [hstep]
      exact ⟨fun p hp' hpl => absurd hpl (by simp [hnoplay p hp']),
             by show ([] : List (Nat × String)).length ≤ 1; simp,
             fun _ => rfl, h4, h5,
             fun p hp' => absurd hp' (List.not_mem_nil p)⟩
  · rcases hfind : s.sources.find? (fun p => p.fst == i) with _ | q
    · have hstep : stepEv s (Event.ended i) = (s, []) := by
        simp [stepEv, sourceEnded, hfind]
      rw [hstep]
      exact ⟨h1, h2, h3, h4, h5, h6⟩
    · cases hpl : q.snd.playing with
      | false =>
        have hstep : stepEv s (Event.ended i) = (s, []) := by
          simp [stepEv, sourceEnded, hfind, hpl]
        rw [hstep]
        exact ⟨h1, h2, h3, h4, h5, h6⟩
      | true =>
        have hqmem := List.mem_of_find?_eq_some hfind
        obtain ⟨href, hatt, hpend, hsp⟩ := h1 q hqmem hpl
        have hqi : q.fst = i := by simpa using List.find?_some hfind
        have hstep : (stepEv s (Event.ended i)).1 =
            (playNextInQueue
              { s with sources := s.sources.map (fun (p : Nat × Source) =>
                         if p.fst == i then (p.fst, { p.snd with playing := false })
                         else p),
                       sourceRef := none }).1 := by
          simp [stepEv, sourceEnded, hfind, hpl, hatt]
        rw [hstep]
        apply invAdvance
        · exact hpend
        · intro p hp'
          obtain ⟨r, hr, hrp⟩ := List.mem_map.mp hp'
          cases hri : (r.fst == i) with
          | true =>
            rw [hri] at hrp
            rw [← hrp]
            simp
          | false =>
            rw [hri] at hrp
            simp only [Bool.false_eq_true, if_false] at hrp
            rw [← hrp]
            cases hrl : r.snd.playing with
            | false => rfl
            | true =>
              exfalso
              have hthis := (h1 r hr hrl).1
              rw [href] at hthis
              injection hthis with hh
              have : r.fst = i := by rw [← hh, hqi]
              simp [this] at hri
        · show ((s.sources.map (fun (p : Nat × Source) =>
            if p.fst == i then (p.fst, { p.snd with playing := false }) else p)).map
              Prod.fst).Nodup
          rw [mapFstGuard]
          exact h4
        · intro p hp'
          obtain ⟨r, hr, hrp⟩ := List.mem_map.mp hp'
          have hfst : p.fst = r.fst := by
            rw [← hrp]
            cases hri : (r.fst == i) <;> simp [hri]
          show p.fst < s.nextId
          rw [hfst]
          exact h5 r hr
        · exact hsp

/-- The invariant holds along every stop-clean run. -/
theorem invRun (es : List Event) :
    ∀ s : PipelineState, PipelineInv s → cleanStops s es = true →
    PipelineInv (run s es).1 := by
  induction es with
  | nil => intro s h _; exact h
  | cons e es ih =>
    intro s h hclean
    rw [cleanStops, Bool.and_eq_true] at hclean
    have hstop : stopInvoked s e = true → s.pendingSynth = [] := by
      intro hsi
      have hc1 := hclean.1
      rw [hsi] at hc1
      simpa using hc1
    exact ih (stepEv s e).1 (invStep s e h hstop) hclean.2

/-- Claim C2, amended: in every interleaving of speak clicks, stops,
synthesis continuations and completions in which `stopPlayback` is never
executed while a synthesis call is in flight, at most one Audio Output
Resource is playing at any point.  (The counterexample shows the
restriction is necessary: a stop during an in-flight synthesis yields a
detached source that can overlap the next session.) -/
theorem claim_C2_amended (es : List Event)
    (hclean : cleanStops initState es = true) :
    activeCount (run initState es).1 ≤ 1 :=
  activeCountLeOne _ (invRun es initState pipelineInvInit hclean)

/-- Witness for the amended claim C2: a full session with a stop after
natural completion is stop-clean and keeps at most one active source. -/
theorem claim_C2_amended_witness :
    activeCount (run initState
      [Event.speak ["A"], Event.synthOk 0, Event.ended 1, Event.stop]).1 ≤ 1 :=
  claim_C2_amended [Event.speak ["A"], Event.synthOk 0, Event.ended 1, Event.stop]
    (by decide)

/-- Claim C3, amended: for every non-empty list of non-empty segments,
the uninterrupted run produces exactly the canonical trace — one
synthesis request per segment, in list order, where the request of
segment N+1 appears only after the playback start of segment N and the
playback of segment N is completed before it (the schedule interleaves
`synthOk` and `ended` strictly); moreover in every stop-clean
interleaving at most one synthesis call is in flight at any point. -/
theorem claim_C3_amended (t : String) (ts : List String) (ht : t ≠ "")
    (hts : ∀ x ∈ ts, x ≠ "") :
    synthRequestsOf (run initState (Event.speak (t :: ts) :: drain 0 1 ts)).2 =
      t :: ts ∧
    (run initState (Event.speak (t :: ts) :: drain 0 1 ts)).2 =
      Obs.speakingSet true :: Obs.synthRequest t :: drainTrace 1 t ts ∧
    ∀ es, cleanStops initState es = true →
      (run initState es).1.pendingSynth.length ≤ 1 := by
  have hd := drainRun ts 0 1 t none none none [] hts (by simp)
  have hrun : run initState (Event.speak (t :: ts) :: drain 0 1 ts) =
      ((run ⟨ts, false, true, none, [], none, [(0, t)], none, 1⟩ (drain 0 1 ts)).1,
       [Obs.speakingSet true, Obs.synthRequest t] ++
         (run ⟨ts, false, true, none, [], none, [(0, t)], none, 1⟩ (drain 0 1 ts)).2) := by
    simp only [run, speakEval t ts ht]
  rw [hrun]
  refine ⟨?_, ?_, ?_⟩
  · rw [synthRequestsOfAppend, hd.1, (drainTraceProps ts 1 t).1]
    simp [synthRequestsOf]
  · rw [hd.1]
    rfl
  · intro es hclean
    exact (invRun es initState pipelineInvInit hclean).2.1

/-- Witness for the amended claim C3 at segments ["A", "B"]. -/
theorem claim_C3_amended_witness :
    synthRequestsOf (run initState (Event.speak ["A", "B"] :: drain 0 1 ["B"])).2 =
      ["A", "B"] ∧
    (run initState (Event.speak ["A", "B"] :: drain 0 1 ["B"])).2 =
      Obs.speakingSet true :: Obs.synthRequest "A" :: drainTrace 1 "A" ["B"] ∧
    ∀ es, cleanStops initState es = true →
      (run initState es).1.pendingSynth.length ≤ 1 :=
  claim_C3_amended "A" ["B"] (by decide) (by decide)

/-! ### Decode parameters -/

/-- The synchronous prefix of `playNextInQueue` performs no decode. -/
theorem playNextNoDecode (s : PipelineState) (r c : Nat)
    (h : Obs.decodeCall r c ∈ (playNextInQueue s).2) : False := by
  rw [playNextInQueue] at h
  by_cases hc : (s.stoppedManually || s.queue.isEmpty) = true
  · rw [if_pos hc] at h
    simp at h
  · rw [if_neg hc] at h
    rcases hq : s.queue with _ | ⟨t, rest⟩
    · rw [hq] at h
      simp at h
    · rw [hq] at h
      by_cases htt : t = ""
      · simp [htt] at h
      · simp [htt] at h

/-- Every decode performed by an `InvestmentPredictor` event uses
24000 Hz and one channel, as hard-coded at the `decodeAudioData` call
site. -/
theorem decodeParamsStep (s : PipelineState) (e : Event) (r c : Nat)
    (h : Obs.decodeCall r c ∈ (stepEv s e).2) : r = 24000 ∧ c = 1 := by
  rcases e with segs | _ | i | i | i
  · rw [show stepEv s (Event.speak segs) = handleSpeak s segs from rfl,
        handleSpeak] at h
    by_cases hsp : s.isSpeaking = true
    · rw [if_pos hsp, stopPlayback_eq] at h
      simp at h
    · rw [if_neg hsp] at h
      simp only [List.mem_cons] at h
      rcases h with h | h
      · simp at h
      · exact (playNextNoDecode _ r c h).elim
  · rw [show stepEv s Event.stop = stopPlayback s from rfl, stopPlayback_eq] at h
    simp at h
  · rcases hfind : s.pendingSynth.find? (fun p => p.fst == i) with _ | q
    · simp [stepEv, hfind] at h
    · simp only [stepEv, hfind] at h
      rw [synthResolveOk_eq] at h
      simp at h
      exact h
  · rcases hfind : s.pendingSynth.find? (fun p => p.fst == i) with _ | q
    · simp [stepEv, hfind] at h
    · simp [stepEv, hfind, synthResolveErr] at h
  · rcases hfind : s.sources.find? (fun p => p.fst == i) with _ | q
    · simp [stepEv, sourceEnded, hfind] at h
    · cases hpl : q.snd.playing with
      | false => simp [stepEv, sourceEnded, hfind, hpl] at h
      | true =>
        cases hatt : q.snd.onendedAttached with
        | false => simp [stepEv, sourceEnded, hfind, hpl, hatt] at h
        | true =>
          simp only [stepEv, sourceEnded, hfind, hpl, hatt, if_true] at h
          exact (playNextNoDecode _ r c h).elim

/-- Every decode along any `InvestmentPredictor` run uses 24000 Hz and
one channel. -/
theorem decodeParamsRun (es : List Event) :
    ∀ (s : PipelineState) (r c : Nat),
    Obs.decodeCall r c ∈ (run s es).2 → r = 24000 ∧ c = 1 := by
  induction es with
  | nil => intro s r c h; cases h
  | cons e es ih =>
    intro s r c h
    rcases List.mem_append.mp h with h | h
    · exact decodeParamsStep s e r c h
    · exact ih (stepEv s e).1 r c h

/-- FinanceAdvisor: `stopPlayback` emits only the speaking reset. -/
theorem faStopTrace (s : FAState) : (faStopPlayback s).2 = [Obs.speakingSet false] := by
  rcases s with ⟨sp, em, ctx, srcs, ref, pend, nid⟩
  rcases ref with _ | j <;> rcases ctx with _ | (_ | _ | _) <;> simp [faStopPlayback]

/-- FinanceAdvisor: the post-await continuation decodes at 24000 Hz mono
and starts the fresh source. -/
theorem faSynthOkTrace (s : FAState) (text : String) :
    (faSynthResolveOk s text).2 =
      [Obs.decodeCall 24000 1, Obs.playStart s.nextId text] := by
  rcases s with ⟨sp, em, ctx, srcs, ref, pend, nid⟩
  rcases ctx with _ | (_ | _ | _) <;> rcases ref with _ | j <;> simp [faSynthResolveOk]

/-- Every decode performed by a FinanceAdvisor event uses 24000 Hz and
one channel, as hard-coded at its `decodeAudioData` call site. -/
theorem faDecodeParamsStep (s : FAState) (e : FAEvent) (r c : Nat)
    (h : Obs.decodeCall r c ∈ (faStepEv s e).2) : r = 24000 ∧ c = 1 := by
  rcases e with text | _ | i | i | i
  · rw [show faStepEv s (FAEvent.speak text) = faHandleSpeak s text from rfl,
        faHandleSpeak] at h
    by_cases hsp : s.isSpeaking = true
    · rw [if_pos hsp, faStopTrace] at h
      simp at h
    · rw [if_neg hsp] at h
      simp at h
  · rw [show faStepEv s FAEvent.stop = faStopPlayback s from rfl, faStopTrace] at h
    simp at h
  · rcases hfind : s.pendingSynth.find? (fun p => p.fst == i) with _ | q
    · simp [faStepEv, hfind] at h
    · simp only [faStepEv, hfind] at h
      rw [faSynthOkTrace] at h
      simp at h
      exact h
  · rcases hfind : s.pendingSynth.find? (fun p => p.fst == i) with _ | q
    · simp [faStepEv, hfind] at h
    · simp [faStepEv, hfind, faSynthResolveErr] at h
  · rcases hfind : s.sources.find? (fun p => p.fst == i) with _ | q
    · simp [faStepEv, faSourceEnded, hfind] at h
    · cases hpl : q.snd.playing with
      | false => simp [faStepEv, faSourceEnded, hfind, hpl] at h
      | true =>
        cases hatt : q.snd.onendedAttached with
        | false => simp [faStepEv, faSourceEnded, hfind, hpl, hatt] at h
        | true => simp [faStepEv, faSourceEnded, hfind, hpl, hatt] at h

/-- Every decode along any FinanceAdvisor run uses 24000 Hz and one
channel. -/
theorem faDecodeParamsRun (es : List FAEvent) :
    ∀ (s : FAState) (r c : Nat),
    Obs.decodeCall r c ∈ (faRun s es).2 → r = 24000 ∧ c = 1 := by
  induction es with
  | nil => intro s r c h; cases h
  | cons e es ih =>
    intro s r c h
    rcases List.mem_append.mp h with h | h
    · exact faDecodeParamsStep s e r c h
    · exact ih (faStepEv s e).1 r c h

/-- Claim C7: in both components that implement playback, every decode
of synthesized audio bytes into a playable buffer uses the fixed sample
rate 24000 Hz and exactly one (mono) channel, in every possible run. -/
theorem claim_C7 :
    (∀ (es : List Event) (r c : Nat),
      Obs.decodeCall r c ∈ (run initState es).2 → r = 24000 ∧ c = 1) ∧
    (∀ (es : List FAEvent) (r c : Nat),
      Obs.decodeCall r c ∈ (faRun faInitState es).2 → r = 24000 ∧ c = 1) :=
  ⟨fun es r c h => decodeParamsRun es initState r c h,
   fun es r c h => faDecodeParamsRun es faInitState r c h⟩

/-- Witness for claim C7: concrete runs of both components containing a
decode. -/
theorem claim_C7_witness :
    (24000 = 24000 ∧ 1 = 1) ∧ (24000 = 24000 ∧ 1 = 1) :=
  ⟨claim_C7.1 [Event.speak ["A"], Event.synthOk 0] 24000 1 (by decide),
   claim_C7.2 [FAEvent.speak "A", FAEvent.synthOk 0] 24000 1 (by decide)⟩
